import Mathlib

/-
  Verification development for the streaming agent-orchestration loop of the
  InfonexVibeCode repository.  The definitions below are shallow embeddings of
  the TypeScript source:
    * server/lib/gemini.ts   : parseToolCalls, parseActionsFromBuffer,
                               chatWithAIStream (the streaming markup parser);
    * server/routes.ts       : the POST /api/messages/stream handler (the
                               stream orchestrator and tool dispatcher);
    * server/lib/viteConfigSync.ts : validateViteConfigOnWrite;
    * server/lib/e2b.ts      : executeShellCommand result shapes.
  External collaborators (blob store, sandbox exec service, relational store)
  are modelled as the spec directs (section 1, OUT OF SCOPE): a key-value blob
  store, an exec service whose outcomes are supplied by an environment of
  oracles, and a repository of File records.  A single project is modelled, so
  the projectId parameter threaded through the source is dropped.
-/

set_option maxRecDepth 4000

/-! ### Basic string machinery (JS string primitives used by the source) -/

/-- The character `{` (written via its code so that brace characters never
appear outside of strings). -/
def lbrace : Char := Char.ofNat 123

/-- The character `}`. -/
def rbrace : Char := Char.ofNat 125

/-- Does the character list `s` start with the pattern `p`?  (Mirrors JS
`String.prototype.startsWith` on decomposed strings.) -/
def leadsWith : List Char → List Char → Bool
  | [], _ => true
  | _ :: _, [] => false
  | p :: ps, c :: cs => p = c && leadsWith ps cs

/-- Split `s` at the first occurrence of the pattern `pat`, returning the part
before the occurrence and the part after it.  `none` when `pat` does not occur.
An empty pattern occurs at position 0 (as in JS `indexOf`). -/
def splitFirstSub (pat : List Char) : List Char → Option (List Char × List Char)
  | [] => if leadsWith pat [] then some ([], []) else none
  | c :: cs =>
    if leadsWith pat (c :: cs) then some ([], (c :: cs).drop pat.length)
    else (splitFirstSub pat cs).map (fun p => (c :: p.1, p.2))

/-- JS `String.prototype.includes` for literal substrings. -/
def containsSub (s pat : String) : Bool := (splitFirstSub pat.data s.data).isSome

/-- JS GetSubstitution for a *string*-pattern replace (no capture groups and
no named captures, so `$n` and `$<` stay literal): `$$` yields `$`, `$&` the
matched substring, `$` followed by the code-96 character (backquote) the
portion of the subject before the match, `$` followed by the code-39
character (quote) the portion after it; any other `$` is kept literally. -/
def getSubstitution (matched pre post : List Char) : List Char → List Char
  | [] => []
  | c :: rest =>
    if c = '$' then
      match rest with
      | [] => ['$']
      | d :: r =>
        if d = '$' then '$' :: getSubstitution matched pre post r
        else if d = '&' then matched ++ getSubstitution matched pre post r
        else if d = Char.ofNat 96 then pre ++ getSubstitution matched pre post r
        else if d = Char.ofNat 39 then post ++ getSubstitution matched pre post r
        else '$' :: d :: getSubstitution matched pre post r
    else c :: getSubstitution matched pre post rest

/-- JS `String.prototype.replace` with a *string* pattern: replaces the first
occurrence only, applying GetSubstitution to the replacement (the matched
substring is the search string itself); the identity when the pattern does
not occur. -/
def replaceFirst (s pat rep : String) : String :=
  match splitFirstSub pat.data s.data with
  | some (pre, post) => ⟨pre ++ getSubstitution pat.data pre post rep.data ++ post⟩
  | none => s

/-- JS `String.prototype.substring 0 n` on ASCII content (`n` counted in
characters). -/
def strTake (s : String) (n : Nat) : String := ⟨s.data.take n⟩

/-- JS `String.prototype.slice n` on ASCII content. -/
def strDrop (s : String) (n : Nat) : String := ⟨s.data.drop n⟩

/-- JS `\s` (whitespace class) the whitespace set of both regex matching and trim. -/
def isJsWsCh (c : Char) : Bool :=
  c = ' ' || c = '\t' || c = '\n' || c = '\r' || c = Char.ofNat 11 || c = Char.ofNat 12 ||
  c = Char.ofNat 0xA0 || c = Char.ofNat 0x1680 ||
  (0x2000 ≤ c.toNat && c.toNat ≤ 0x200A) ||
  c = Char.ofNat 0x2028 || c = Char.ofNat 0x2029 || c = Char.ofNat 0x202F ||
  c = Char.ofNat 0x205F || c = Char.ofNat 0x3000 || c = Char.ofNat 0xFEFF

/-- JS `String.prototype.trim`. -/
def jsTrim (s : String) : String :=
  ⟨((s.data.dropWhile isJsWsCh).reverse.dropWhile isJsWsCh).reverse⟩

/-! ### A JSON value model and a `JSON.parse` model

The source calls `JSON.parse` on candidate tool-call payloads; a payload that
fails to parse makes the tool call be dropped.  The model below implements the
standard JSON grammar (objects, arrays, strings with escapes, numbers stored
as their raw token, booleans, null), with fuel for termination. -/

inductive Json where
  | null
  | bool (b : Bool)
  | num (raw : String)
  | str (s : String)
  | arr (elems : List Json)
  | obj (fields : List (String × Json))

/-- JSON whitespace. -/
def isJsonWs (c : Char) : Bool := c = ' ' || c = '\t' || c = '\n' || c = '\r'

/-- Drop leading JSON whitespace. -/
def skipJsonWs (cs : List Char) : List Char := cs.dropWhile isJsonWs

/-- Hex digit value. -/
def hexVal (c : Char) : Option Nat :=
  if '0' ≤ c ∧ c ≤ '9' then some (c.toNat - '0'.toNat)
  else if 'a' ≤ c ∧ c ≤ 'f' then some (c.toNat - 'a'.toNat + 10)
  else if 'A' ≤ c ∧ c ≤ 'F' then some (c.toNat - 'A'.toNat + 10)
  else none

/-- Four hex digits to a code unit. -/
def hex4 (a b c d : Char) : Option Nat :=
  match hexVal a, hexVal b, hexVal c, hexVal d with
  | some x, some y, some z, some w => some (((x * 16 + y) * 16 + z) * 16 + w)
  | _, _, _, _ => none

/-- JSON string body scanner (the opening quote already consumed).  Decodes the
standard escapes; `\uXXXX` pairs of surrogates are combined, lone surrogates
are rejected (no input considered here uses `\u` escapes). -/
def jstringGo : List Char → List Char → Option (String × List Char)
  | [], _ => none
  | '"' :: rest, acc => some (⟨acc.reverse⟩, rest)
  | '\\' :: rest, acc =>
    match rest with
    | [] => none
    | e :: rest' =>
      if e = '"' then jstringGo rest' ('"' :: acc)
      else if e = '\\' then jstringGo rest' ('\\' :: acc)
      else if e = '/' then jstringGo rest' ('/' :: acc)
      else if e = 'b' then jstringGo rest' (Char.ofNat 8 :: acc)
      else if e = 'f' then jstringGo rest' (Char.ofNat 12 :: acc)
      else if e = 'n' then jstringGo rest' ('\n' :: acc)
      else if e = 'r' then jstringGo rest' ('\r' :: acc)
      else if e = 't' then jstringGo rest' ('\t' :: acc)
      else if e = 'u' then
        match rest' with
        | a :: b :: c :: d :: rest'' =>
          match hex4 a b c d with
          | none => none
          | some n =>
            if n < 0xD800 ∨ 0xE000 ≤ n then jstringGo rest'' (Char.ofNat n :: acc)
            else if n < 0xDC00 then
              match rest'' with
              | '\\' :: 'u' :: a2 :: b2 :: c2 :: d2 :: rest3 =>
                match hex4 a2 b2 c2 d2 with
                | some m =>
                  if 0xDC00 ≤ m ∧ m < 0xE000 then
                    jstringGo rest3
                      (Char.ofNat (0x10000 + (n - 0xD800) * 0x400 + (m - 0xDC00)) :: acc)
                  else none
                | none => none
              | _ => none
            else none
        | _ => none
      else none
  | c :: rest, acc => if c.toNat < 32 then none else jstringGo rest (c :: acc)

/-- JSON string parser entry (after the opening quote). -/
def jstring (cs : List Char) : Option (String × List Char) := jstringGo cs []

/-- ASCII digit test. -/
def isDigitCh (c : Char) : Bool := '0' ≤ c ∧ c ≤ '9'

/-- JSON number token: `-?(0|[1-9][0-9]*)(.[0-9]+)?([eE][+-]?[0-9]+)?`.
Returns the raw token and the rest. -/
def jnumber (cs : List Char) : Option (String × List Char) :=
  let (sign, cs1) := match cs with
    | '-' :: r => (['-'], r)
    | _ => (([] : List Char), cs)
  let intPart := cs1.takeWhile isDigitCh
  let cs2 := cs1.dropWhile isDigitCh
  if intPart.isEmpty then none
  else if intPart.length > 1 && intPart.headD '0' = '0' then none
  else
    let fracRes : Option (List Char × List Char) := match cs2 with
      | '.' :: r =>
        let ds := r.takeWhile isDigitCh
        if ds.isEmpty then none else some ('.' :: ds, r.dropWhile isDigitCh)
      | _ => some ([], cs2)
    match fracRes with
    | none => none
    | some (fracPart, cs3) =>
      let expRes : Option (List Char × List Char) := match cs3 with
        | e :: r =>
          if e = 'e' || e = 'E' then
            let (es, r1) := match r with
              | '+' :: r2 => (['+'], r2)
              | '-' :: r2 => (['-'], r2)
              | _ => (([] : List Char), r)
            let ds := r1.takeWhile isDigitCh
            if ds.isEmpty then none else some (e :: (es ++ ds), r1.dropWhile isDigitCh)
          else some ([], cs3)
        | _ => some ([], cs3)
      match expRes with
      | none => none
      | some (expPart, cs4) => some (⟨sign ++ intPart ++ fracPart ++ expPart⟩, cs4)

mutual

/-- JSON value parser with fuel. -/
def jparseVal : Nat → List Char → Option (Json × List Char)
  | 0, _ => none
  | fuel + 1, cs =>
    match skipJsonWs cs with
    | [] => none
    | c :: rest =>
      if c = lbrace then
        match skipJsonWs rest with
        | c' :: rest' =>
          if c' = rbrace then some (.obj [], rest')
          else
            match jparseMembers fuel (c' :: rest') with
            | some (fs, r) => some (.obj fs, r)
            | none => none
        | [] => none
      else if c = '[' then
        match skipJsonWs rest with
        | ']' :: rest' => some (.arr [], rest')
        | other =>
          match jparseElems fuel other with
          | some (es, r) => some (.arr es, r)
          | none => none
      else if c = '"' then
        match jstring rest with
        | some (s, r) => some (.str s, r)
        | none => none
      else if leadsWith "true".data (c :: rest) then some (.bool true, rest.drop 3)
      else if leadsWith "false".data (c :: rest) then some (.bool false, rest.drop 4)
      else if leadsWith "null".data (c :: rest) then some (.null, rest.drop 3)
      else
        match jnumber (c :: rest) with
        | some (raw, r) => some (.num raw, r)
        | none => none

/-- JSON object member list (positioned at a key, whitespace skipped). -/
def jparseMembers : Nat → List Char → Option (List (String × Json) × List Char)
  | 0, _ => none
  | fuel + 1, cs =>
    match cs with
    | '"' :: rest =>
      match jstring rest with
      | some (k, rest1) =>
        match skipJsonWs rest1 with
        | ':' :: rest2 =>
          match jparseVal fuel rest2 with
          | some (v, rest3) =>
            match skipJsonWs rest3 with
            | ',' :: rest4 =>
              match jparseMembers fuel (skipJsonWs rest4) with
              | some (fs, r) => some ((k, v) :: fs, r)
              | none => none
            | c :: rest4 => if c = rbrace then some ([(k, v)], rest4) else none
            | [] => none
          | none => none
        | _ => none
      | none => none
    | _ => none

/-- JSON array element list (positioned at a value). -/
def jparseElems : Nat → List Char → Option (List Json × List Char)
  | 0, _ => none
  | fuel + 1, cs =>
    match jparseVal fuel cs with
    | some (v, rest) =>
      match skipJsonWs rest with
      | ',' :: rest' =>
        match jparseElems fuel rest' with
        | some (es, r) => some (v :: es, r)
        | none => none
      | ']' :: rest' => some ([v], rest')
      | _ => none
    | none => none

end

/-- The model of `JSON.parse`: a complete JSON text (surrounding whitespace
allowed), `none` on any syntax error. -/
def Json.parse (s : String) : Option Json :=
  match jparseVal (s.data.length + 1) s.data with
  | some (v, rest) => if skipJsonWs rest = [] then some v else none
  | none => none

/-! ### The incremental markup parser (server/lib/gemini.ts) -/

/-- A recognized tool call: tool name plus parsed JSON argument object
(gemini.ts, interface ToolCall). -/
structure ToolCall where
  name : String
  args : Json

/-- JS `\w` (word characters). -/
def isWordChar (c : Char) : Bool := c.isAlphanum || c = '_'

/-- The lazy capture of the tool-call regex
`[tool:(\w+)]({[sS]*?)(?=[tool:|$)` : characters up to (excluding) the next
occurrence of the literal `[tool:`, or to the end of input.  Returns the
captured characters and the continuation. -/
def captureGo : List Char → List Char × List Char
  | [] => ([], [])
  | c :: rest =>
    if leadsWith "[tool:".data (c :: rest) then ([], c :: rest)
    else
      let p := captureGo rest
      (c :: p.1, p.2)

/-- Try to match the tool-call pattern at the current position: literal
`[tool:`, a nonempty run of word characters, `]`, `{`, then the lazy capture.
Returns (tool name, captured payload starting with the brace, continuation). -/
def tryToolAt (cs : List Char) : Option (String × String × List Char) :=
  if leadsWith "[tool:".data cs then
    let afterTag := cs.drop 6
    let w := afterTag.takeWhile isWordChar
    let afterW := afterTag.dropWhile isWordChar
    if w.isEmpty then none
    else
      match afterW with
      | c1 :: c2 :: afterBrace =>
        if c1 = ']' ∧ c2 = lbrace then
          let p := captureGo afterBrace
          some (⟨w⟩, ⟨lbrace :: p.1⟩, p.2)
        else none
      | _ => none
  else none

/-- Scan the whole content for tool-call matches, advancing by one character
where the pattern does not match (regex `exec` loop, gemini.ts line 396). -/
def findToolGo : Nat → List Char → List (String × String)
  | 0, _ => []
  | _, [] => []
  | fuel + 1, c :: rest =>
    match tryToolAt (c :: rest) with
    | some (name, payload, cont) => (name, payload) :: findToolGo fuel cont
    | none => findToolGo fuel rest

/-- All matches of the tool-call pattern in order. -/
def findToolMatches (s : String) : List (String × String) :=
  findToolGo (s.data.length + 1) s.data

/-- The brace-counting loop of parseToolCalls (gemini.ts lines 402-411):
every `{` increments and every `}` decrements the count - including braces
inside JSON string literals - and `jsonEnd` is `i+1` for the first index
`i > 0` at which the count is zero, or `0` if that never happens. -/
def braceEndGo : List Char → Int → Nat → Nat
  | [], _, _ => 0
  | c :: rest, count, i =>
    let count' := if c = lbrace then count + 1 else if c = rbrace then count - 1 else count
    if count' = 0 ∧ 0 < i then i + 1 else braceEndGo rest count' (i + 1)

/-- `jsonEnd` for a candidate payload. -/
def braceEnd (s : String) : Nat := braceEndGo s.data 0 0

/-- parseToolCalls (gemini.ts lines 388-427): for each regex match, trim the
captured payload, truncate it at `jsonEnd` when positive, and `JSON.parse` it;
a payload that fails to parse is dropped (the catch branch only logs). -/
def parseToolCalls (content : String) : List ToolCall :=
  (findToolMatches content).filterMap fun m =>
    let jsonStr := jsTrim m.2
    let e := braceEnd jsonStr
    let jsonStr := if e > 0 then strTake jsonStr e else jsonStr
    match Json.parse jsonStr with
    | some args => some ⟨m.1, args⟩
    | none => none

/-- Action status (gemini.ts, interface ActionMatch). -/
inductive ActionStatus where
  | pending
  | in_progress
  | completed
  | error
deriving DecidableEq

/-- An action announcement parsed from the stream. -/
structure ActionMatch where
  description : String
  status : ActionStatus
deriving DecidableEq

/-- JS line terminators (not matched by `.` in a regex). -/
def isLineTerm (c : Char) : Bool :=
  c = '\n' || c = '\r' || c = Char.ofNat 0x2028 || c = Char.ofNat 0x2029

/-- The lazy group of `[action:(.*?)]`: characters up to the first `]`, failing
on a line terminator or end of input.  Returns (description, rest after `]`). -/
def closeBracketGo : List Char → Option (List Char × List Char)
  | [] => none
  | c :: rest =>
    if c = ']' then some ([], rest)
    else if isLineTerm c then none
    else (closeBracketGo rest).map (fun p => (c :: p.1, p.2))

/-- The `exec` loop over `[action:(.*?)]` matches: returns the raw descriptions
in order together with `lastIndex`, the character position just after the last
complete match (0 when there is none). -/
def scanActionsGo : Nat → List Char → Nat → List String × Nat
  | 0, _, _ => ([], 0)
  | _, [], _ => ([], 0)
  | fuel + 1, c :: rest, pos =>
    if leadsWith "[action:".data (c :: rest) then
      match closeBracketGo ((c :: rest).drop 8) with
      | some (desc, after) =>
        let matchEnd := pos + 8 + desc.length + 1
        let p := scanActionsGo fuel after matchEnd
        ((⟨desc⟩ : String) :: p.1, if p.2 = 0 then matchEnd else p.2)
      | none => scanActionsGo fuel rest (pos + 1)
    else scanActionsGo fuel rest (pos + 1)

/-- parseActionsFromBuffer (gemini.ts lines 352-386): emit one `in_progress`
action per complete `[action:...]` marker with a nonempty trimmed description;
then keep, as the remaining buffer, the tail after the last complete match if
it contains a further `[action:` occurrence, or nothing otherwise; when no
complete match was found the whole buffer is kept; on the final call the
buffer is discarded. -/
def parseActionsFromBuffer (buffer : String) (isFinal : Bool) : List ActionMatch × String :=
  let p := scanActionsGo (buffer.data.length + 1) buffer.data 0
  let actions := p.1.filterMap fun d =>
    let t := jsTrim d
    if t = "" then none else some ⟨t, ActionStatus.in_progress⟩
  let remaining :=
    if isFinal then ""
    else if p.2 > 0 then
      let tl := strDrop buffer p.2
      if containsSub tl "[action:" then tl else ""
    else buffer
  (actions, remaining)

/-- The events yielded by chatWithAIStream. -/
inductive StreamEvent where
  | text (content : String)
  | action (a : ActionMatch)
  | tool_call (t : ToolCall)

/-- Loop state of chatWithAIStream: the accumulated full content, the action
buffer, and the events yielded so far. -/
structure StreamAcc where
  fullContent : String
  buffer : String
  events : List StreamEvent

/-- One iteration of the `for await` loop of chatWithAIStream (gemini.ts lines
314-330): a falsy (empty) chunk is skipped; otherwise the chunk is appended to
the full content and the buffer, complete actions are emitted (before the text
event), and the buffer is replaced by the parse remainder. -/
def streamStep (s : StreamAcc) (content : String) : StreamAcc :=
  if content.isEmpty then s
  else
    let buffer := s.buffer ++ content
    let pa := parseActionsFromBuffer buffer false
    { fullContent := s.fullContent ++ content
      buffer := pa.2
      events := s.events ++ pa.1.map StreamEvent.action ++ [StreamEvent.text content] }

/-- chatWithAIStream (gemini.ts lines 288-345) as a function from the list of
model fragments to the ordered event list: the per-chunk loop, then the final
action parse of a nonempty trimmed buffer, then - only after the whole stream
has been consumed - the tool calls parsed from the full content. -/
def chatWithAIStream (chunks : List String) : List StreamEvent :=
  let s := chunks.foldl streamStep ⟨"", "", []⟩
  let evs :=
    if jsTrim s.buffer ≠ "" then
      s.events ++ (parseActionsFromBuffer s.buffer true).1.map StreamEvent.action
    else s.events
  evs ++ (parseToolCalls s.fullContent).map StreamEvent.tool_call

/-- Concatenation of the raw fragments (the value accumulated in
`fullContent`). -/
def concatChunks : List String → String
  | [] => ""
  | c :: r => c ++ concatChunks r

/-! ### Spec-side definitions for refinement comparisons -/

/-- Modelled from the spec: the JSON-span extraction the specification
describes - a double quote not preceded by an unescaped backslash toggles the
in-string state, only braces outside of a string change the depth, and the
span ends when the depth returns to zero.  Returns the length of the span in
characters. -/
def jsonSpanSpecGo : List Char → Int → Bool → Bool → Nat → Option Nat
  | [], _, _, _, _ => none
  | c :: rest, depth, inStr, esc, i =>
    if inStr then
      if esc then jsonSpanSpecGo rest depth true false (i + 1)
      else if c = '\\' then jsonSpanSpecGo rest depth true true (i + 1)
      else if c = '"' then jsonSpanSpecGo rest depth false false (i + 1)
      else jsonSpanSpecGo rest depth true false (i + 1)
    else if c = '"' then jsonSpanSpecGo rest depth true false (i + 1)
    else if c = lbrace then jsonSpanSpecGo rest (depth + 1) false false (i + 1)
    else if c = rbrace then
      if depth = 1 then some (i + 1)
      else jsonSpanSpecGo rest (depth - 1) false false (i + 1)
    else jsonSpanSpecGo rest depth false false (i + 1)

/-- Modelled from the spec: the string-escape-aware extraction of the JSON
object span at the start of `s` (`none` when the object never closes). -/
def jsonSpanSpec (s : String) : Option String :=
  (jsonSpanSpecGo s.data 0 false false 0).map (strTake s)

/-- Modelled from the spec: the assistant text with markers stripped - every
complete `[action:...]` marker and every `[tool:name]` marker together with
its (escape-aware) JSON span removed from the raw output. -/
def stripGo : Nat → List Char → List Char
  | 0, cs => cs
  | _, [] => []
  | fuel + 1, c :: rest =>
    if leadsWith "[action:".data (c :: rest) then
      match closeBracketGo ((c :: rest).drop 8) with
      | some (_, after) => stripGo fuel after
      | none => c :: stripGo fuel rest
    else if leadsWith "[tool:".data (c :: rest) then
      let afterTag := (c :: rest).drop 6
      let w := afterTag.takeWhile isWordChar
      let afterW := afterTag.dropWhile isWordChar
      if w.isEmpty then c :: stripGo fuel rest
      else
        match afterW with
        | ']' :: afterBr =>
          match jsonSpanSpecGo afterBr 0 false false 0 with
          | some n => stripGo fuel (afterBr.drop n)
          | none => c :: stripGo fuel rest
        | _ => c :: stripGo fuel rest
    else c :: stripGo fuel rest

/-- Modelled from the spec: marker-stripped assistant text. -/
def stripMarkersSpec (s : String) : String := ⟨stripGo (s.data.length + 1) s.data⟩

/-! ### The tool dispatcher and stream orchestrator (server/routes.ts 510-872)

A single project is modelled.  The relational store, blob store and sandbox
are the spec's out-of-scope collaborators: the store state lives in `St`, and
the outcome of each fallible external call is supplied by an `Env` of
oracles. -/

/-- An execution result from the sandbox exec service (e2b.ts,
ExecutionResult). -/
structure ExecutionResult where
  stdout : String
  stderr : String
  exitCode : Int
deriving DecidableEq

/-- The shape returned by deleteFileFromSandbox at its call sites in
routes.ts: a success flag plus an optional error string. -/
structure SandboxDeletion where
  success : Bool
  error : Option String
deriving DecidableEq

/-- Outcome of awaiting executeShellCommand under the 10s `Promise.race`
timeout (routes.ts lines 783-792): either the sandbox returns a result in
time, or the race rejects with `Command timeout`.  (executeShellCommand
itself never rejects: e2b.ts lines 245-267 catch every error and resolve
with an error-shaped ExecutionResult, which is the `completes` case.) -/
inductive ShellOutcome where
  | completes (r : ExecutionResult)
  | timesOut
deriving DecidableEq

/-- The per-target outcome map of delete_file (routes.ts line 670). -/
structure DeletionStatus where
  s3 : Bool
  sandbox : Bool
  database : Bool
deriving DecidableEq

/-- One entry of the list_files result (routes.ts lines 721-725). -/
structure FileInfo where
  path : String
  size : Option Nat
  mimeType : Option String
deriving DecidableEq

/-- The machine result payload attached to a ToolCallRecord, by tool. -/
inductive ToolResult where
  | shell (r : ExecutionResult)
  | deletion (d : DeletionStatus)
  | fileList (files : List FileInfo)
  | fileContent (content : String) (path : String)
  | code (r : ExecutionResult)
  | workflow (command : String) (message : String)
deriving DecidableEq

/-- An entry pushed onto the `toolCalls` array of the handler (name,
arguments, human summary, optional machine result). -/
structure ToolCallRecord where
  name : String
  args : Json
  summary : String
  result : Option ToolResult

/-- A File record of the relational store (shared/schema.ts, `files`). -/
structure FileRec where
  id : Nat
  path : String
  s3Key : String
  size : Nat
  mimeType : Option String
deriving DecidableEq

/-- The mutable state of the external collaborators: File records, blob
store, sandbox filesystem, and the project's workflow command.  Modelled from
the spec: the blob store and sandbox are key-value stores, the relational
store a conventional repository. -/
structure St where
  files : List FileRec
  s3 : List (String × String)
  sandbox : List (String × String)
  workflowCommand : Option String
  nextId : Nat
deriving DecidableEq

/-- Oracles for the fallible external calls: each returns the error carried
by the rejection (`some msg`) or success (`none`), respectively the structured
outcome for sandbox deletion, shell execution and code execution. -/
structure Env where
  s3PutFails : String → Option String
  sandboxWriteFails : String → Option String
  s3DeleteFails : String → Option String
  sandboxDelete : String → SandboxDeletion
  dbDeleteFails : Nat → Option String
  shellOutcome : String → ShellOutcome
  codeOutcome : String → String → ExecutionResult

/-- JS destructuring `const { k } = args` followed by use as a string. -/
def Json.getStr (j : Json) (k : String) : Option String :=
  match j with
  | .obj fs =>
    match (fs.filter (fun p => p.1 == k)).getLast? with
    | some (_, .str s) => some s
    | _ => none
  | _ => none

/-- storage.getFileByPath for the modelled project. -/
def getFileByPath (st : St) (path : String) : Option FileRec :=
  st.files.find? (fun f => f.path == path)

/-- Modelled from the spec: uploadFileToS3 stores under a key derived
deterministically from the file path within the project's namespace (the s3
helper itself is not under src/; the spec treats the blob store as
put/get/delete by key). -/
def s3KeyOf (path : String) : String := "s3/" ++ path

/-- Key-value put (overwrite or append). -/
def kvPut (m : List (String × String)) (k v : String) : List (String × String) :=
  if m.any (fun p => p.1 == k) then m.map (fun p => if p.1 == k then (k, v) else p)
  else m ++ [(k, v)]

/-- Key-value get. -/
def kvGet (m : List (String × String)) (k : String) : Option String :=
  (m.find? (fun p => p.1 == k)).map (fun p => p.2)

/-- Key-value delete. -/
def kvDel (m : List (String × String)) (k : String) : List (String × String) :=
  m.filter (fun p => !(p.1 == k))

/-- The create-or-update of the File record done by write_file (routes.ts
lines 618-631). -/
def upsertFile (st : St) (path s3Key : String) (size : Nat) : St :=
  match getFileByPath st path with
  | some f =>
    { st with files := st.files.map fun g =>
        if g.id == f.id then { g with s3Key := s3Key, size := size } else g }
  | none =>
    { st with
      files := st.files ++ [{ id := st.nextId, path := path, s3Key := s3Key,
                              size := size, mimeType := none }]
      nextId := st.nextId + 1 }

/-- storage.deleteFile. -/
def dbDeleteFile (st : St) (id : Nat) : St :=
  { st with files := st.files.filter fun f => !(f.id == id) }

/-! #### The long-running command classifier (routes.ts lines 753-759) -/

/-- Does the suffix match `.*\.py` (any non-line-terminator characters, then
the literal `.py`) somewhere at its start? -/
def dotStarPy : List Char → Bool
  | [] => false
  | c :: rest =>
    leadsWith ".py".data (c :: rest) || (!(isLineTerm c) && dotStarPy rest)

/-- After at least one whitespace character: either the tail matches
`.*\.py` directly, or further whitespace is consumed by `\s+` first. -/
def pyTry : List Char → Bool
  | [] => false
  | c :: rest => dotStarPy (c :: rest) || (isJsWsCh c && pyTry rest)

/-- After the literal `python`: require at least one `\s` character, then
`pyTry`. -/
def pyAfter : List Char → Bool
  | [] => false
  | c :: rest => isJsWsCh c && pyTry rest

/-- Search for a match of `python\s+.*\.py` anywhere. -/
def pyScan : List Char → Bool
  | [] => false
  | c :: rest =>
    (leadsWith "python".data (c :: rest) && pyAfter ((c :: rest).drop 6)) || pyScan rest

/-- `command.match(/python\s+.*\.py/)` truthiness. -/
def matchesPythonPy (s : String) : Bool := pyScan s.data

/-- The isServerCommand classification (routes.ts lines 753-759). -/
def isServerCommand (command : String) : Bool :=
  containsSub command "python -m http.server" ||
  containsSub command "npm start" ||
  containsSub command "npm run dev" ||
  containsSub command "node " ||
  matchesPythonPy command ||
  containsSub command "flask run" ||
  containsSub command "streamlit run"

/-! #### validateViteConfigOnWrite (server/lib/viteConfigSync.ts 104-160)

Called without a sandboxUrl at its call sites in the stream handler, so the
allowed-hosts list is always `["all",".e2b.dev"]`. -/

/-- `JSON.stringify(['all', '.e2b.dev'])`. -/
def allowedHostsStr : String := "[\"all\",\".e2b.dev\"]"

/-- Generic first-match search for a positional matcher: returns the text
before the match, the match length, and the text after it. -/
def findMatchGo (matchAt : List Char → Option Nat) :
    Nat → List Char → Option (List Char × Nat × List Char)
  | 0, _ => none
  | _, [] => none
  | fuel + 1, c :: rest =>
    match matchAt (c :: rest) with
    | some n => some ([], n, (c :: rest).drop n)
    | none => (findMatchGo matchAt fuel rest).map fun p => (c :: p.1, p.2.1, p.2.2)

/-- Replace the first match of `matchAt` by `rep`; the identity when there is
no match (JS `String.prototype.replace` with a regex pattern; the fixed
replacement texts the source passes here contain no `$`, so GetSubstitution
is vacuous for them and the insertion is literal). -/
def replaceFirstMatch (matchAt : List Char → Option Nat) (s rep : String) : String :=
  match findMatchGo matchAt (s.data.length + 1) s.data with
  | some (pre, _, post) => ⟨pre ++ rep.data ++ post⟩
  | none => s

/-- Positional matcher for `server:\s*{`. -/
def matchServerOpenAt (cs : List Char) : Option Nat :=
  if leadsWith "server:".data cs then
    let rest := cs.drop 7
    let wsLen := (rest.takeWhile isJsWsCh).length
    match rest.drop wsLen with
    | c :: _ => if c = lbrace then some (7 + wsLen + 1) else none
    | [] => none
  else none

/-- Positional matcher for
`allowedHosts:\s*(?:true|false|['"][^'"]*['"]|\[.*?\])`. -/
def matchAllowedHostsAt (cs : List Char) : Option Nat :=
  if leadsWith "allowedHosts:".data cs then
    let rest := cs.drop 13
    let wsLen := (rest.takeWhile isJsWsCh).length
    let rest2 := rest.drop wsLen
    if leadsWith "true".data rest2 then some (13 + wsLen + 4)
    else if leadsWith "false".data rest2 then some (13 + wsLen + 5)
    else
      match rest2 with
      | q :: r =>
        if q = '\'' ∨ q = '"' then
          let body := r.takeWhile fun c => !(c == '\'') && !(c == '"')
          match r.drop body.length with
          | q2 :: _ =>
            if q2 = '\'' ∨ q2 = '"' then some (13 + wsLen + 1 + body.length + 1) else none
          | [] => none
        else if q = '[' then
          let body := r.takeWhile fun c => !(c == ']') && !(isLineTerm c)
          match r.drop body.length with
          | ']' :: _ => some (13 + wsLen + 1 + body.length + 1)
          | _ => none
        else none
      | [] => none
  else none

/-- The replacement text inserted when a server block exists without an
allowedHosts entry. -/
def serverOpenRep : String :=
  "server: \x7b\n    allowedHosts: " ++ allowedHostsStr ++ ","

/-- The replacement text inserted when no server block exists. -/
def serverBlockRep (head : String) : String :=
  head ++ "\n  server: \x7b\n    host: '0.0.0.0',\n    port: 3000,\n    allowedHosts: " ++
    allowedHostsStr ++ "\n  \x7d,"

/-- validateViteConfigOnWrite: the identity for every path other than
`vite.config.ts`; otherwise ensures the content carries the expected
allowedHosts setting, via the same textual fixes as
ensureViteConfigAllowedHosts. -/
def validateViteConfigOnWrite (path content : String) : String :=
  if path ≠ "vite.config.ts" then content
  else if containsSub content ("allowedHosts: " ++ allowedHostsStr) then content
  else if containsSub content "server:" then
    if containsSub content "allowedHosts:" then
      replaceFirstMatch matchAllowedHostsAt content ("allowedHosts: " ++ allowedHostsStr)
    else
      replaceFirstMatch matchServerOpenAt content serverOpenRep
  else if containsSub content "export default defineConfig(\x7b" then
    replaceFirst content "export default defineConfig(\x7b"
      (serverBlockRep "export default defineConfig(\x7b")
  else if containsSub content "export default \x7b" then
    replaceFirst content "export default \x7b" (serverBlockRep "export default \x7b")
  else content

/-! #### The tool dispatcher (the if-chain of routes.ts lines 605-824)

`executeTool` returns the state as mutated up to the point of any thrown
error (mutations made before a throw persist, as in the source), together
with either the pushed ToolCallRecord (`ok some`), nothing for a tool name
with no branch (`ok none` - the if-chain has no else, so e.g.
serper_web_search is silently ignored), or the caught error message
(`error`).  A missing argument field is modelled as a thrown TypeError (in
the source the `undefined` value would fault inside the `try` block and be
caught the same way). -/

def executeTool (env : Env) (st : St) (toolName : String) (args : Json) :
    St × Except String (Option ToolCallRecord) :=
  if toolName = "write_file" then
    match args.getStr "path", args.getStr "content" with
    | some path, some content =>
      let finalContent := validateViteConfigOnWrite path content
      let key := s3KeyOf path
      match env.s3PutFails key with
      | some msg => (st, .error msg)
      | none =>
        let st1 := { st with s3 := kvPut st.s3 key finalContent }
        match env.sandboxWriteFails path with
        | some msg => (st1, .error msg)
        | none =>
          let st2 := { st1 with sandbox := kvPut st1.sandbox path finalContent }
          let st3 := upsertFile st2 path key finalContent.utf8ByteSize
          (st3, .ok (some { name := toolName, args := args,
                            summary := "Created " ++ path, result := none }))
    | _, _ => (st, .error "TypeError: missing tool argument")
  else if toolName = "edit_file" then
    match args.getStr "path", args.getStr "old_str", args.getStr "new_str" with
    | some path, some old_str, some new_str =>
      match getFileByPath st path with
      | none => (st, .error ("File not found: " ++ path))
      | some f =>
        match kvGet st.s3 f.s3Key with
        | none => (st, .error ("S3 object not found: " ++ f.s3Key))
        | some currentContent =>
          let fileContent := replaceFirst currentContent old_str new_str
          let fileContent := validateViteConfigOnWrite path fileContent
          let key := s3KeyOf path
          match env.s3PutFails key with
          | some msg => (st, .error msg)
          | none =>
            let st1 := { st with s3 := kvPut st.s3 key fileContent }
            match env.sandboxWriteFails path with
            | some msg => (st1, .error msg)
            | none =>
              let st2 := { st1 with sandbox := kvPut st1.sandbox path fileContent }
              (st2, .ok (some { name := toolName, args := args,
                                summary := "Edited " ++ path, result := none }))
    | _, _, _ => (st, .error "TypeError: missing tool argument")
  else if toolName = "delete_file" then
    match args.getStr "path" with
    | some path =>
      match getFileByPath st path with
      | none =>
        (st, .ok (some { name := toolName, args := args,
                         summary := "File " ++ path ++ " not found in database",
                         result := some (.deletion ⟨false, false, false⟩) }))
      | some f =>
        let p1 : St × Bool × List String :=
          match env.s3DeleteFails f.s3Key with
          | none => ({ st with s3 := kvDel st.s3 f.s3Key }, true, [])
          | some msg => (st, false, ["S3: " ++ msg])
        let sd := env.sandboxDelete path
        let st2 := if sd.success then { p1.1 with sandbox := kvDel p1.1.sandbox path } else p1.1
        let errors2 := p1.2.2 ++
          (if ¬ sd.success ∧ sd.error.isSome then ["Sandbox: " ++ sd.error.getD ""] else [])
        let p3 : St × Bool × List String :=
          if p1.2.1 || sd.success then
            match env.dbDeleteFails f.id with
            | none => (dbDeleteFile st2 f.id, true, errors2)
            | some msg => (st2, false, errors2 ++ ["Database: " ++ msg])
          else (st2, false, errors2)
        let summary :=
          if p3.2.2.isEmpty then "Deleted " ++ path
          else "Partially deleted " ++ path ++ " (" ++ String.intercalate ", " p3.2.2 ++ ")"
        (p3.1, .ok (some { name := toolName, args := args, summary := summary,
                           result := some (.deletion ⟨p1.2.1, sd.success, p3.2.1⟩) }))
    | none => (st, .error "TypeError: missing tool argument")
  else if toolName = "list_files" then
    let fileList := st.files.map fun f => (⟨f.path, some f.size, f.mimeType⟩ : FileInfo)
    (st, .ok (some { name := toolName, args := args,
                     summary := "Listed " ++ toString st.files.length ++ " files",
                     result := some (.fileList fileList) }))
  else if toolName = "read_file" then
    match args.getStr "path" with
    | some path =>
      match getFileByPath st path with
      | none => (st, .error ("File not found: " ++ path))
      | some f =>
        match kvGet st.s3 f.s3Key with
        | none => (st, .error ("S3 object not found: " ++ f.s3Key))
        | some content =>
          (st, .ok (some { name := toolName, args := args,
                           summary := "Read " ++ path ++ " (" ++ toString content.length ++ " characters)",
                           result := some (.fileContent content path) }))
    | none => (st, .error "TypeError: missing tool argument")
  else if toolName = "run_shell" then
    match args.getStr "command" with
    | some command =>
      if isServerCommand command then
        ({ st with workflowCommand := some command },
         .ok (some { name := toolName, args := args, summary := "Started: " ++ command,
                     result := some (.shell ⟨"Server started in background", "", 0⟩) }))
      else
        let result := match env.shellOutcome command with
          | .completes r => r
          | .timesOut => ⟨"", "Command timed out (running in background)", 0⟩
        (st, .ok (some { name := toolName, args := args, summary := "Ran shell: " ++ command,
                         result := some (.shell result) }))
    | none => (st, .error "TypeError: missing tool argument")
  else if toolName = "run_code" then
    match args.getStr "code", args.getStr "language" with
    | some code, some language =>
      (st, .ok (some { name := toolName, args := args,
                       summary := "Executed " ++ language ++ " code",
                       result := some (.code (env.codeOutcome code language)) }))
    | _, _ => (st, .error "TypeError: missing tool argument")
  else if toolName = "configure_workflow" then
    match args.getStr "command" with
    | some command =>
      ({ st with workflowCommand := some command },
       .ok (some { name := toolName, args := args,
                   summary := "Configured workflow: " ++ command,
                   result := some (.workflow command
                     "Workflow command saved. Will auto-run on sandbox restart and available via manual run button.") }))
    | none => (st, .error "TypeError: missing tool argument")
  else (st, .ok none)

/-- Sequential dispatch of a list of tool calls, collecting the pushed
records (error and unknown-name calls contribute none). -/
def dispatchAll (env : Env) (st : St) : List ToolCall → St × List ToolCallRecord
  | [] => (st, [])
  | t :: ts =>
    let r := executeTool env st t.name t.args
    let recs := match r.2 with
      | .ok (some rec) => [rec]
      | _ => []
    let rest := dispatchAll env r.1 ts
    (rest.1, recs ++ rest.2)

/-! #### The stream orchestrator loop (routes.ts lines 579-867)

The SSE events written to the client, gated on `clientConnected`.  The
connection is modelled by a disconnect time `d` counted in processed stream
events: while handling event number `k` the client is connected iff `k < d`
(the `req.on close` listener can only flip the flag between awaits, i.e.
between events; the two writes after the loop are sampled at positions `n`
and `n + 1`). -/

/-- One line of the server-to-client streaming protocol. -/
inductive ClientEvent where
  | chunkEv (content : String)
  | actionEv (a : ActionMatch)
  | toolEv (name : String) (summary : String)
  | errorEv (message : String)
  | actionsCompletedEv (actions : List ActionMatch)
  | doneEv

/-- Effect of one stream event on the handler state: the next collaborator
state, the text appended to `fullResponse`, the record pushed to `toolCalls`,
the action pushed to `actions`, and the client write attempted (performed
only while connected). -/
structure StepOut where
  st : St
  text : String
  record : Option ToolCallRecord
  act : Option ActionMatch
  write : Option ClientEvent

/-- The per-event branch of the `for await` loop (routes.ts lines 586-831). -/
def stepOne (env : Env) (st : St) : StreamEvent → StepOut
  | .text c => ⟨st, c, none, none, some (.chunkEv c)⟩
  | .action a => ⟨st, "", none, some a, some (.actionEv a)⟩
  | .tool_call t =>
    let r := executeTool env st t.name t.args
    match r.2 with
    | .ok none => ⟨r.1, "", none, none, none⟩
    | .ok (some rec) => ⟨r.1, "", some rec, none, some (.toolEv rec.name rec.summary)⟩
    | .error msg => ⟨r.1, "", none, none, some (.errorEv msg)⟩

/-- Accumulated outcome of the loop. -/
structure LoopOut where
  st : St
  fullResponse : String
  toolCalls : List ToolCallRecord
  actions : List ActionMatch
  writes : List ClientEvent

/-- The loop over the parser's events, starting at event position `k` with
disconnect time `d`. -/
def runLoop (env : Env) (st : St) : List StreamEvent → Nat → Nat → LoopOut
  | [], _, _ => ⟨st, "", [], [], []⟩
  | e :: rest, k, d =>
    let o := stepOne env st e
    let r := runLoop env o.st rest (k + 1) d
    ⟨r.st, o.text ++ r.fullResponse, o.record.toList ++ r.toolCalls, o.act.toList ++ r.actions,
     (if k < d then o.write.toList else []) ++ r.writes⟩

/-- The action-status mutation applied at finalization (routes.ts lines
835-838). -/
def markCompleted (a : ActionMatch) : ActionMatch := { a with status := .completed }

/-- The assistant message persisted by storage.createMessage (routes.ts lines
846-852): the accumulated content, and the tool-call and action lists - or
null (`none`) when empty. -/
structure PersistedMessage where
  content : String
  toolCalls : Option (List ToolCallRecord)
  actions : Option (List ActionMatch)

/-- Everything observable from one turn: the client writes actually
performed, the persisted assistant message, and the final collaborator
state. -/
structure TurnResult where
  writes : List ClientEvent
  persisted : PersistedMessage
  finalSt : St

/-- `null`-ing of an empty list (the `length > 0 ? xs : null` pattern). -/
def optList {α : Type} (xs : List α) : Option (List α) :=
  if xs.isEmpty then none else some xs

/-- One whole turn (routes.ts lines 579-859): run the parser's events through
the loop, mark every collected action completed, write the completed-actions
event (connected clients with at least one action only), persist the
assistant message unconditionally, then write `done` (connected clients
only). -/
def runTurn (env : Env) (st : St) (chunks : List String) (d : Nat) : TurnResult :=
  let evs := chatWithAIStream chunks
  let o := runLoop env st evs 0 d
  let n := evs.length
  let completed := o.actions.map markCompleted
  let ws1 := o.writes ++
    (if n < d ∧ ¬ completed.isEmpty then [ClientEvent.actionsCompletedEv completed] else [])
  let persisted : PersistedMessage :=
    { content := o.fullResponse
      toolCalls := optList o.toolCalls
      actions := optList completed }
  let ws2 := ws1 ++ (if n + 1 < d then [ClientEvent.doneEv] else [])
  ⟨ws2, persisted, o.st⟩

/-- The text contributed by one stream event to `fullResponse`. -/
def evText : StreamEvent → String
  | .text c => c
  | _ => ""

/-- The action carried by a stream event, if any. -/
def actOf : StreamEvent → Option ActionMatch
  | .action a => some a
  | _ => none

/-- The tool call carried by a stream event, if any. -/
def toolOf : StreamEvent → Option ToolCall
  | .tool_call t => some t
  | _ => none

/-- The tool calls of an event list, in order. -/
def toolsOf (evs : List StreamEvent) : List ToolCall := evs.filterMap toolOf

/-- The actions emitted by the parser for a fragment list. -/
def streamedActions (chunks : List String) : List ActionMatch :=
  (chatWithAIStream chunks).filterMap actOf

/-- Is a stream event a tool-call event? -/
def isToolEvent : StreamEvent → Bool
  | .tool_call _ => true
  | _ => false

/-- The tool-call events of a stream, in order. -/
def toolEventsOf (evs : List StreamEvent) : List StreamEvent := evs.filter isToolEvent

/-! ### Concrete environments and states used by the closed instances -/

/-- An environment in which every external call succeeds, shell commands time
out, and code execution returns an empty result. -/
def envA : Env :=
  { s3PutFails := fun _ => none
    sandboxWriteFails := fun _ => none
    s3DeleteFails := fun _ => none
    sandboxDelete := fun _ => ⟨true, none⟩
    dbDeleteFails := fun _ => none
    shellOutcome := fun _ => .timesOut
    codeOutcome := fun _ _ => ⟨"", "", 0⟩ }

/-- `envA` but with the sandbox file deletion failing. -/
def envSb : Env := { envA with sandboxDelete := fun _ => ⟨false, some "boom"⟩ }

/-- The empty collaborator state. -/
def stEmpty : St := ⟨[], [], [], none, 0⟩

/-- A state holding one file `a.txt` with content `hello`. -/
def stFile : St :=
  ⟨[⟨0, "a.txt", "s3/a.txt", 5, none⟩], [("s3/a.txt", "hello")], [("a.txt", "hello")], none, 1⟩

/-! ### Helper lemmas -/

theorem concatChunks_append (l1 l2 : List String) :
    concatChunks (l1 ++ l2) = concatChunks l1 ++ concatChunks l2 := by
  induction l1 with
  | nil => simp [concatChunks, String.empty_append]
  | cons c t ih => simp [concatChunks, ih, String.append_assoc]

theorem isEmpty_eq_empty {c : String} (h : c.isEmpty = true) : c = "" := by
  cases c with
  | mk d =>
    cases d with
    | nil => rfl
    | cons x xs =>
      exfalso
      simp [String.isEmpty, String.endPos, String.utf8ByteSize] at h
      have h2 := congrArg String.Pos.byteIdx h
      simp at h2
      have h3 := Char.utf8Size_pos x
      omega

theorem streamStep_fullContent (s : StreamAcc) (c : String) :
    (streamStep s c).fullContent = s.fullContent ++ c := by
  unfold streamStep
  by_cases h : c.isEmpty
  · rw [if_pos h, isEmpty_eq_empty h, String.append_empty]
  · rw [if_neg h]

theorem foldl_streamStep_fullContent (cs : List String) :
    ∀ s : StreamAcc, (cs.foldl streamStep s).fullContent = s.fullContent ++ concatChunks cs := by
  induction cs with
  | nil => intro s; simp [concatChunks, String.append_empty]
  | cons c t ih =>
    intro s
    simp only [List.foldl_cons, concatChunks]
    rw [ih, streamStep_fullContent, String.append_assoc]

theorem foldl_streamStep_events_inv (P : StreamEvent → Prop)
    (hact : ∀ buf a, a ∈ (parseActionsFromBuffer buf false).1 → P (StreamEvent.action a))
    (htext : ∀ c, P (StreamEvent.text c)) :
    ∀ (cs : List String) (s : StreamAcc), (∀ e ∈ s.events, P e) →
      ∀ e ∈ (cs.foldl streamStep s).events, P e := by
  intro cs
  induction cs with
  | nil => intro s h; exact h
  | cons c t ih =>
    intro s h
    refine ih _ ?_
    intro e he
    unfold streamStep at he
    by_cases hc : c.isEmpty
    · rw [if_pos hc] at he; exact h e he
    · rw [if_neg hc] at he
      simp only [List.mem_append, List.mem_map, List.mem_singleton] at he
      rcases he with (he | ⟨a, ha, rfl⟩) | rfl
      · exact h e he
      · exact hact _ a ha
      · exact htext c

theorem parseActions_status (buf : String) (fin : Bool) :
    ∀ a ∈ (parseActionsFromBuffer buf fin).1, a.status = ActionStatus.in_progress := by
  intro a ha
  unfold parseActionsFromBuffer at ha
  simp only [List.mem_filterMap] at ha
  obtain ⟨d, _, hd⟩ := ha
  by_cases h : jsTrim d = ""
  · simp [h] at hd
  · simp [h] at hd
    rw [← hd]

theorem chat_decompose (cs : List String) :
    ∃ pre, chatWithAIStream cs =
        pre ++ (parseToolCalls (concatChunks cs)).map StreamEvent.tool_call ∧
      ∀ e ∈ pre, isToolEvent e = false := by
  have hfc : (cs.foldl streamStep ⟨"", "", []⟩).fullContent = concatChunks cs := by
    rw [foldl_streamStep_fullContent]
    exact String.empty_append _
  have hnt : ∀ e ∈ (cs.foldl streamStep ⟨"", "", []⟩).events, isToolEvent e = false := by
    refine foldl_streamStep_events_inv _ ?_ ?_ cs _ ?_
    · intro _ _ _; rfl
    · intro _; rfl
    · intro e he; simp at he
  refine ⟨if jsTrim (cs.foldl streamStep ⟨"", "", []⟩).buffer ≠ "" then
      (cs.foldl streamStep ⟨"", "", []⟩).events ++
        (parseActionsFromBuffer (cs.foldl streamStep ⟨"", "", []⟩).buffer true).1.map
          StreamEvent.action
    else (cs.foldl streamStep ⟨"", "", []⟩).events, ?_, ?_⟩
  · calc chatWithAIStream cs
        = (if jsTrim (cs.foldl streamStep ⟨"", "", []⟩).buffer ≠ "" then
            (cs.foldl streamStep ⟨"", "", []⟩).events ++
              (parseActionsFromBuffer (cs.foldl streamStep ⟨"", "", []⟩).buffer true).1.map
                StreamEvent.action
          else (cs.foldl streamStep ⟨"", "", []⟩).events) ++
          (parseToolCalls (cs.foldl streamStep ⟨"", "", []⟩).fullContent).map
            StreamEvent.tool_call := rfl
      _ = _ := by rw [hfc]
  · intro e he
    by_cases hb : jsTrim (cs.foldl streamStep ⟨"", "", []⟩).buffer ≠ ""
    · rw [if_pos hb] at he
      simp only [List.mem_append, List.mem_map] at he
      rcases he with he | ⟨a, _, rfl⟩
      · exact hnt e he
      · rfl
    · rw [if_neg hb] at he
      exact hnt e he

theorem filter_isTool_map_tool (ts : List ToolCall) :
    (ts.map StreamEvent.tool_call).filter isToolEvent = ts.map StreamEvent.tool_call := by
  induction ts with
  | nil => rfl
  | cons t r ih => simp [isToolEvent, ih]

theorem filter_isTool_eq_nil {l : List StreamEvent} (h : ∀ e ∈ l, isToolEvent e = false) :
    l.filter isToolEvent = [] := by
  rw [List.filter_eq_nil_iff]
  intro e he
  simp [h e he]

theorem chat_filter_tool (cs : List String) :
    toolEventsOf (chatWithAIStream cs) =
      (parseToolCalls (concatChunks cs)).map StreamEvent.tool_call := by
  obtain ⟨pre, heq, hnt⟩ := chat_decompose cs
  rw [toolEventsOf, heq, List.filter_append, filter_isTool_eq_nil hnt,
    filter_isTool_map_tool, List.nil_append]

theorem runLoop_core (env : Env) (evs : List StreamEvent) :
    ∀ (st : St) (k d k' d' : Nat),
      (runLoop env st evs k d).st = (runLoop env st evs k' d').st ∧
      (runLoop env st evs k d).fullResponse = (runLoop env st evs k' d').fullResponse ∧
      (runLoop env st evs k d).toolCalls = (runLoop env st evs k' d').toolCalls ∧
      (runLoop env st evs k d).actions = (runLoop env st evs k' d').actions := by
  induction evs with
  | nil => intro st k d k' d'; exact ⟨rfl, rfl, rfl, rfl⟩
  | cons e t ih =>
    intro st k d k' d'
    simp only [runLoop]
    obtain ⟨h1, h2, h3, h4⟩ := ih (stepOne env st e).st (k + 1) d (k' + 1) d'
    exact ⟨h1, by rw [h2], by rw [h3], by rw [h4]⟩

theorem runLoop_writes_stop (env : Env) (evs : List StreamEvent) :
    ∀ (st : St) (k d : Nat), d ≤ k → (runLoop env st evs k d).writes = [] := by
  induction evs with
  | nil => intro st k d _; rfl
  | cons e t ih =>
    intro st k d h
    simp only [runLoop]
    rw [if_neg (by omega), ih _ (k + 1) d (by omega), List.nil_append]

theorem runLoop_writes_mono (env : Env) (evs : List StreamEvent) :
    ∀ (st : St) (k d d' : Nat), d ≤ d' →
      ∃ t, (runLoop env st evs k d').writes = (runLoop env st evs k d).writes ++ t := by
  induction evs with
  | nil => intro st k d d' _; exact ⟨[], rfl⟩
  | cons e t ih =>
    intro st k d d' h
    simp only [runLoop]
    by_cases hk : k < d
    · rw [if_pos hk, if_pos (by omega)]
      obtain ⟨t0, ht0⟩ := ih (stepOne env st e).st (k + 1) d d' h
      exact ⟨t0, by rw [ht0, List.append_assoc]⟩
    · rw [if_neg hk, runLoop_writes_stop env t _ (k + 1) d (by omega), List.nil_append]
      exact ⟨_, rfl⟩

theorem runLoop_writes_all (env : Env) (evs : List StreamEvent) :
    ∀ (st : St) (k d d' : Nat), k + evs.length ≤ d → k + evs.length ≤ d' →
      (runLoop env st evs k d).writes = (runLoop env st evs k d').writes := by
  induction evs with
  | nil => intro st k d d' _ _; rfl
  | cons e t ih =>
    intro st k d d' h h'
    simp only [runLoop, List.length_cons] at h h' ⊢
    rw [if_pos (by omega), if_pos (by omega),
      ih (stepOne env st e).st (k + 1) d d' (by omega) (by omega)]

theorem runLoop_actionEv_mem (env : Env) (evs : List StreamEvent) :
    ∀ (st : St) (k d : Nat) (a : ActionMatch),
      ClientEvent.actionEv a ∈ (runLoop env st evs k d).writes → StreamEvent.action a ∈ evs := by
  induction evs with
  | nil => intro st k d a h; simp [runLoop] at h
  | cons e t ih =>
    intro st k d a h
    simp only [runLoop, List.mem_append] at h
    rcases h with h | h
    · have he : e = StreamEvent.action a := by
        by_cases hk : k < d
        · rw [if_pos hk] at h
          cases e with
          | text c => simp [stepOne] at h
          | action b =>
            simp [stepOne] at h
            rw [h]
          | tool_call tc =>
            exfalso
            simp only [stepOne] at h
            rcases hout : (executeTool env st tc.name tc.args).2 with out | out
            · simp [hout] at h
            · cases out with
              | none => simp [hout] at h
              | some rec => simp [hout] at h
        · rw [if_neg hk] at h
          simp at h
      rw [he]
      exact List.mem_cons_self _ _
    · exact List.mem_cons_of_mem _ (ih _ (k + 1) d a h)

theorem runLoop_no_error_writes (env : Env) (evs : List StreamEvent)
    (hnt : ∀ e ∈ evs, isToolEvent e = false) :
    ∀ (st : St) (k d : Nat) (w : ClientEvent),
      w ∈ (runLoop env st evs k d).writes →
        (∀ m, w ≠ ClientEvent.errorEv m) ∧ (∀ nm sm, w ≠ ClientEvent.toolEv nm sm) := by
  induction evs with
  | nil => intro st k d w h; simp [runLoop] at h
  | cons e t ih =>
    intro st k d w h
    simp only [runLoop, List.mem_append] at h
    rcases h with h | h
    · by_cases hk : k < d
      · rw [if_pos hk] at h
        cases e with
        | text c =>
          simp [stepOne] at h
          simp [h]
        | action b =>
          simp [stepOne] at h
          simp [h]
        | tool_call tc =>
          exact absurd (hnt _ (List.mem_cons_self _ _)) (by simp [isToolEvent])
      · rw [if_neg hk] at h
        simp at h
    · exact ih (fun e' he' => hnt e' (List.mem_cons_of_mem _ he')) _ (k + 1) d w h

theorem runLoop_fullResponse (env : Env) (evs : List StreamEvent) :
    ∀ (st : St) (k d : Nat),
      (runLoop env st evs k d).fullResponse = concatChunks (evs.map evText) := by
  induction evs with
  | nil => intro st k d; rfl
  | cons e t ih =>
    intro st k d
    simp only [runLoop, List.map_cons, concatChunks]
    rw [ih]
    congr 1
    cases e with
    | text c => rfl
    | action b => rfl
    | tool_call tc =>
      simp only [stepOne]
      rcases hout : (executeTool env st tc.name tc.args).2 with out | out
      · simp [hout, evText]
      · cases out with
        | none => simp [hout, evText]
        | some rec => simp [hout, evText]

theorem runLoop_actions_eq (env : Env) (evs : List StreamEvent) :
    ∀ (st : St) (k d : Nat),
      (runLoop env st evs k d).actions = evs.filterMap actOf := by
  induction evs with
  | nil => intro st k d; rfl
  | cons e t ih =>
    intro st k d
    simp only [runLoop, List.filterMap_cons]
    cases e with
    | text c => simp [stepOne, actOf, ih]
    | action b => simp [stepOne, actOf, ih]
    | tool_call tc =>
      simp only [stepOne, actOf]
      rcases hout : (executeTool env st tc.name tc.args).2 with out | out
      · simp [hout, ih]
      · cases out with
        | none => simp [hout, ih]
        | some rec => simp [hout, ih]

theorem runLoop_dispatch (env : Env) (evs : List StreamEvent) :
    ∀ (st : St) (k d : Nat),
      (runLoop env st evs k d).toolCalls = (dispatchAll env st (toolsOf evs)).2 ∧
      (runLoop env st evs k d).st = (dispatchAll env st (toolsOf evs)).1 := by
  induction evs with
  | nil => intro st k d; exact ⟨rfl, rfl⟩
  | cons e t ih =>
    intro st k d
    cases e with
    | text c =>
      simpa only [runLoop, stepOne, toolsOf, List.filterMap_cons, actOf, toolOf,
        Option.toList, List.nil_append] using ih st (k + 1) d
    | action b =>
      simpa only [runLoop, stepOne, toolsOf, List.filterMap_cons, actOf, toolOf,
        Option.toList, List.nil_append] using ih st (k + 1) d
    | tool_call tc =>
      have htool : toolsOf (StreamEvent.tool_call tc :: t) = tc :: toolsOf t := by
        simp [toolsOf, toolOf]
      rw [htool]
      simp only [runLoop, stepOne, dispatchAll]
      rcases hout : (executeTool env st tc.name tc.args).2 with out | out
      · simp only [hout]
        obtain ⟨h1, h2⟩ := ih (executeTool env st tc.name tc.args).1 (k + 1) d
        exact ⟨by simp [h1], h2⟩
      · cases out with
        | none =>
          simp only [hout]
          obtain ⟨h1, h2⟩ := ih (executeTool env st tc.name tc.args).1 (k + 1) d
          exact ⟨by simp [h1], h2⟩
        | some rec =>
          simp only [hout]
          obtain ⟨h1, h2⟩ := ih (executeTool env st tc.name tc.args).1 (k + 1) d
          exact ⟨by simp [h1], h2⟩

theorem concatChunks_blank {α : Type} (l : List α) :
    concatChunks (l.map fun _ => "") = "" := by
  induction l with
  | nil => rfl
  | cons x r ih => simpa [concatChunks, String.empty_append] using ih

theorem map_evText_action (l : List ActionMatch) :
    (l.map StreamEvent.action).map evText = l.map fun _ => "" := by
  induction l with
  | nil => rfl
  | cons x r ih => simp [evText, ih]

theorem map_evText_tool (l : List ToolCall) :
    (l.map StreamEvent.tool_call).map evText = l.map fun _ => "" := by
  induction l with
  | nil => rfl
  | cons x r ih => simp [evText, ih]

theorem foldl_streamStep_evText (cs : List String) :
    ∀ s : StreamAcc,
      concatChunks ((cs.foldl streamStep s).events.map evText) =
        concatChunks (s.events.map evText) ++ concatChunks cs := by
  induction cs with
  | nil => intro s; simp [concatChunks, String.append_empty]
  | cons c t ih =>
    intro s
    simp only [List.foldl_cons, concatChunks]
    rw [ih]
    by_cases hc : c.isEmpty
    · have hce := isEmpty_eq_empty hc
      subst hce
      unfold streamStep
      rw [if_pos hc, String.empty_append]
    · unfold streamStep
      rw [if_neg hc]
      simp only [List.map_append, List.map_cons, List.map_nil, concatChunks_append,
        map_evText_action, concatChunks_blank, evText]
      simp [concatChunks, String.append_assoc, String.append_empty, String.empty_append]

theorem chat_evText_eq (cs : List String) :
    concatChunks ((chatWithAIStream cs).map evText) = concatChunks cs := by
  have h0 : concatChunks ((cs.foldl streamStep ⟨"", "", []⟩).events.map evText) =
      concatChunks cs := by
    rw [foldl_streamStep_evText]
    exact String.empty_append _
  simp only [chatWithAIStream]
  by_cases hb : jsTrim (cs.foldl streamStep ⟨"", "", []⟩).buffer ≠ ""
  · rw [if_pos hb]
    simp only [List.map_append, concatChunks_append, map_evText_action, map_evText_tool,
      concatChunks_blank, h0, String.append_empty]
  · rw [if_neg hb]
    simp only [List.map_append, concatChunks_append, map_evText_tool,
      concatChunks_blank, h0, String.append_empty]

theorem chat_toolsOf (cs : List String) :
    toolsOf (chatWithAIStream cs) = parseToolCalls (concatChunks cs) := by
  obtain ⟨pre, heq, hnt⟩ := chat_decompose cs
  rw [toolsOf, heq, List.filterMap_append]
  have h1 : pre.filterMap toolOf = [] := by
    rw [List.filterMap_eq_nil_iff]
    intro e he
    cases e with
    | text c => rfl
    | action b => rfl
    | tool_call tc => exact absurd (hnt _ he) (by simp [isToolEvent])
  have h2 : ((parseToolCalls (concatChunks cs)).map StreamEvent.tool_call).filterMap toolOf =
      parseToolCalls (concatChunks cs) := by
    induction parseToolCalls (concatChunks cs) with
    | nil => rfl
    | cons x r ih => simp [toolOf, ih]
  rw [h1, h2, List.nil_append]

theorem chat_action_status (cs : List String) :
    ∀ a, StreamEvent.action a ∈ chatWithAIStream cs → a.status = ActionStatus.in_progress := by
  intro a ha
  have hinv : ∀ e ∈ (cs.foldl streamStep ⟨"", "", []⟩).events,
      ∀ b, e = StreamEvent.action b → b.status = ActionStatus.in_progress := by
    refine foldl_streamStep_events_inv _ ?_ ?_ cs _ ?_
    · intro buf b hb b' hb'
      cases hb'
      exact parseActions_status buf false b hb
    · intro c b hb
      cases hb
    · intro e he; simp at he
  simp only [chatWithAIStream] at ha
  rw [List.mem_append] at ha
  rcases ha with ha | ha
  · by_cases hb : jsTrim (cs.foldl streamStep ⟨"", "", []⟩).buffer ≠ ""
    · rw [if_pos hb, List.mem_append] at ha
      rcases ha with ha | ha
      · exact hinv _ ha a rfl
      · simp only [List.mem_map] at ha
        obtain ⟨b, hb2, hb3⟩ := ha
        cases hb3
        exact parseActions_status _ true _ hb2
    · rw [if_neg hb] at ha
      exact hinv _ ha a rfl
  · simp only [List.mem_map] at ha
    obtain ⟨t, _, ht⟩ := ha
    cases ht

theorem runTurn_content (env : Env) (st : St) (chunks : List String) (d : Nat) :
    (runTurn env st chunks d).persisted.content = concatChunks chunks := by
  simp only [runTurn]
  rw [runLoop_fullResponse, chat_evText_eq]

theorem runTurn_toolCalls_eq (env : Env) (st : St) (chunks : List String) (d : Nat) :
    (runTurn env st chunks d).persisted.toolCalls =
      optList (dispatchAll env st (parseToolCalls (concatChunks chunks))).2 := by
  simp only [runTurn]
  rw [(runLoop_dispatch env (chatWithAIStream chunks) st 0 d).1, chat_toolsOf]

theorem runTurn_actions_eq (env : Env) (st : St) (chunks : List String) (d : Nat) :
    (runTurn env st chunks d).persisted.actions =
      optList ((streamedActions chunks).map markCompleted) := by
  simp only [runTurn]
  rw [runLoop_actions_eq]
  rfl

theorem runTurn_persisted_indep (env : Env) (st : St) (chunks : List String) (d d' : Nat) :
    (runTurn env st chunks d).persisted = (runTurn env st chunks d').persisted ∧
    (runTurn env st chunks d).finalSt = (runTurn env st chunks d').finalSt := by
  simp only [runTurn]
  obtain ⟨h1, h2, h3, h4⟩ := runLoop_core env (chatWithAIStream chunks) st 0 d 0 d'
  refine ⟨?_, h1⟩
  rw [h2, h3, h4]

theorem runTurn_writes_formula (env : Env) (st : St) (chunks : List String) (d : Nat) :
    (runTurn env st chunks d).writes =
      (runLoop env st (chatWithAIStream chunks) 0 d).writes ++
      (if (chatWithAIStream chunks).length < d ∧
          ¬ ((runLoop env st (chatWithAIStream chunks) 0 d).actions.map markCompleted).isEmpty
        then [ClientEvent.actionsCompletedEv
          ((runLoop env st (chatWithAIStream chunks) 0 d).actions.map markCompleted)]
        else []) ++
      (if (chatWithAIStream chunks).length + 1 < d then [ClientEvent.doneEv] else []) := rfl

theorem runTurn_writes_zero (env : Env) (st : St) (chunks : List String) :
    (runTurn env st chunks 0).writes = [] := by
  rw [runTurn_writes_formula, runLoop_writes_stop env _ st 0 0 (Nat.le_refl 0)]
  rw [if_neg (by omega), if_neg (by omega)]
  rfl

theorem runTurn_writes_mono (env : Env) (st : St) (chunks : List String) (d d' : Nat)
    (h : d ≤ d') :
    ∃ t, (runTurn env st chunks d').writes = (runTurn env st chunks d).writes ++ t := by
  rw [runTurn_writes_formula, runTurn_writes_formula]
  obtain ⟨_, _, _, hact⟩ := runLoop_core env (chatWithAIStream chunks) st 0 d 0 d'
  by_cases h1 : (chatWithAIStream chunks).length + 1 < d
  · have h1' : (chatWithAIStream chunks).length + 1 < d' := by omega
    have hn : (chatWithAIStream chunks).length < d := by omega
    have hn' : (chatWithAIStream chunks).length < d' := by omega
    have hw : (runLoop env st (chatWithAIStream chunks) 0 d).writes =
        (runLoop env st (chatWithAIStream chunks) 0 d').writes :=
      runLoop_writes_all env (chatWithAIStream chunks) st 0 d d' (by omega) (by omega)
    refine ⟨[], ?_⟩
    rw [hw, hact]
    rcases Classical.em (((runLoop env st (chatWithAIStream chunks) 0 d').actions.map
        markCompleted).isEmpty = true) with hC | hC
    · simp [h1, h1', hn, hn', hC]
    · simp [h1, h1', hn, hn', hC]
  · by_cases h2 : (chatWithAIStream chunks).length < d
    · have h2' : (chatWithAIStream chunks).length < d' := by omega
      have hw : (runLoop env st (chatWithAIStream chunks) 0 d).writes =
          (runLoop env st (chatWithAIStream chunks) 0 d').writes :=
        runLoop_writes_all env (chatWithAIStream chunks) st 0 d d' (by omega) (by omega)
      refine ⟨if (chatWithAIStream chunks).length + 1 < d' then [ClientEvent.doneEv] else [], ?_⟩
      rw [hw, hact]
      rcases Classical.em (((runLoop env st (chatWithAIStream chunks) 0 d').actions.map
          markCompleted).isEmpty = true) with hC | hC
      · simp [h1, h2, h2', hC, List.append_assoc]
      · simp [h1, h2, h2', hC, List.append_assoc]
    · obtain ⟨t0, ht0⟩ := runLoop_writes_mono env (chatWithAIStream chunks) st 0 d d' h
      refine ⟨t0 ++
        (if (chatWithAIStream chunks).length < d' ∧
            ¬ ((runLoop env st (chatWithAIStream chunks) 0 d').actions.map
              markCompleted).isEmpty
          then [ClientEvent.actionsCompletedEv
            ((runLoop env st (chatWithAIStream chunks) 0 d').actions.map markCompleted)]
          else []) ++
        (if (chatWithAIStream chunks).length + 1 < d' then [ClientEvent.doneEv] else []), ?_⟩
      rw [ht0]
      simp [h1, h2, List.append_assoc]

/-! ### Claim theorems -/

/-- C1: counterexample.  The payload of this tool-call marker is a well-formed
JSON object whose `content` string holds a lone close brace; the spec-side
escape-aware extraction finds exactly the object and `JSON.parse` accepts it,
yet `parseToolCalls` - counting the brace inside the string literal - cuts
the span early and drops the call, so the claimed string-escape-aware
extraction does not hold of the code. -/
theorem C1_counterexample :
    parseToolCalls "[tool:write_file]\x7b\"path\":\"a\",\"content\":\"\x7d\"\x7d" = [] ∧
    jsonSpanSpec "\x7b\"path\":\"a\",\"content\":\"\x7d\"\x7d" =
      some "\x7b\"path\":\"a\",\"content\":\"\x7d\"\x7d" ∧
    Json.parse "\x7b\"path\":\"a\",\"content\":\"\x7d\"\x7d" =
      some (Json.obj [("path", Json.str "a"), ("content", Json.str "\x7d")]) :=
  ⟨rfl, rfl, rfl⟩

/-- C1 (amended): the JSON-span extraction counts every brace, including
braces inside string literals, so a payload with an unbalanced close brace in
a string is truncated and dropped; but because tool calls are parsed from the
full concatenated content after the stream ends, the ToolCall event sequence
is identical for any two fragmentations of the same raw stream. -/
theorem C1_tool_events_chunk_invariant (cs1 cs2 : List String)
    (h : concatChunks cs1 = concatChunks cs2) :
    toolEventsOf (chatWithAIStream cs1) = toolEventsOf (chatWithAIStream cs2) := by
  rw [chat_filter_tool, chat_filter_tool, h]

/-- C1 witness: the same tool-call stream in one fragment and split at an
arbitrary boundary yields the same ToolCall events. -/
theorem C1_tool_events_chunk_invariant_witness :
    toolEventsOf (chatWithAIStream
      ["[tool:run_code]\x7b\"language\":\"python\",\"code\":\"1\"\x7d"]) =
    toolEventsOf (chatWithAIStream
      ["[tool:run_code]\x7b\"langu", "age\":\"python\",\"code\":\"1\"\x7d"]) :=
  C1_tool_events_chunk_invariant _ _ rfl

/-- C2: counterexample.  The tool-call span is complete within the first
fragment, yet its event is emitted only after the text event of the second
fragment - the ToolCall is withheld until end-of-stream, so the emitted order
does not match the raw textual order. -/
theorem C2_counterexample :
    chatWithAIStream ["[tool:run_shell]\x7b\"command\":\"ls\"\x7d", " done"] =
      [StreamEvent.text "[tool:run_shell]\x7b\"command\":\"ls\"\x7d",
       StreamEvent.text " done",
       StreamEvent.tool_call ⟨"run_shell", Json.obj [("command", Json.str "ls")]⟩] := rfl

/-- C2 (amended): Text and Action events are emitted incrementally, but every
ToolCall event is emitted only after end-of-stream: the event list decomposes
into a ToolCall-free prefix followed by exactly the tool calls parsed from the
full content, in marker order. -/
theorem C2_tool_events_after_stream (chunks : List String) :
    ∃ pre, chatWithAIStream chunks =
        pre ++ (parseToolCalls (concatChunks chunks)).map StreamEvent.tool_call ∧
      ∀ e ∈ pre, isToolEvent e = false :=
  chat_decompose chunks

/-- C2 witness: the decomposition at a concrete stream. -/
theorem C2_tool_events_after_stream_witness :
    ∃ pre, chatWithAIStream ["hi [tool:run_code]\x7b\"language\":\"js\",\"code\":\"1\"\x7d"] =
        pre ++ (parseToolCalls (concatChunks
          ["hi [tool:run_code]\x7b\"language\":\"js\",\"code\":\"1\"\x7d"])).map
          StreamEvent.tool_call ∧
      ∀ e ∈ pre, isToolEvent e = false :=
  C2_tool_events_after_stream _

/-- C5: a run_shell command classified long-running is dispatched
fire-and-forget: for every environment (in particular whatever the shell
oracle would return - the execution is not awaited), the record carries the
in-flight acknowledgement `Server started in background` with exit code 0 and
summary `Started: ...`, and the command is persisted as the project's
workflow command. -/
theorem C5_long_running_shell (env : Env) (st : St) (cmd : String)
    (h : isServerCommand cmd = true) :
    executeTool env st "run_shell" (Json.obj [("command", Json.str cmd)]) =
      ({ st with workflowCommand := some cmd },
       Except.ok (some ⟨"run_shell", Json.obj [("command", Json.str cmd)],
         "Started: " ++ cmd,
         some (ToolResult.shell ⟨"Server started in background", "", 0⟩)⟩)) := by
  have hargs : (Json.obj [("command", Json.str cmd)]).getStr "command" = some cmd := rfl
  unfold executeTool
  rw [if_neg (by decide), if_neg (by decide), if_neg (by decide), if_neg (by decide),
    if_neg (by decide), if_pos rfl, hargs]
  simp [h]

/-- C5 witness: `npm run dev` is classified long-running and handled exactly
as the claim states. -/
theorem C5_long_running_shell_witness :
    executeTool envA stEmpty "run_shell" (Json.obj [("command", Json.str "npm run dev")]) =
      ({ stEmpty with workflowCommand := some "npm run dev" },
       Except.ok (some ⟨"run_shell", Json.obj [("command", Json.str "npm run dev")],
         "Started: npm run dev",
         some (ToolResult.shell ⟨"Server started in background", "", 0⟩)⟩)) :=
  C5_long_running_shell envA stEmpty "npm run dev" rfl

/-- C6: a run_shell command classified short-running is awaited under the
bounded timeout; when the race times out the result is the non-fatal
`Command timed out (running in background)` with exit code 0, the state is
unchanged, and the dispatcher returns normally (no exception), so the turn
continues. -/
theorem C6_short_running_timeout (env : Env) (st : St) (cmd : String)
    (h1 : isServerCommand cmd = false) (h2 : env.shellOutcome cmd = ShellOutcome.timesOut) :
    executeTool env st "run_shell" (Json.obj [("command", Json.str cmd)]) =
      (st, Except.ok (some ⟨"run_shell", Json.obj [("command", Json.str cmd)],
        "Ran shell: " ++ cmd,
        some (ToolResult.shell ⟨"", "Command timed out (running in background)", 0⟩)⟩)) := by
  have hargs : (Json.obj [("command", Json.str cmd)]).getStr "command" = some cmd := rfl
  unfold executeTool
  rw [if_neg (by decide), if_neg (by decide), if_neg (by decide), if_neg (by decide),
    if_neg (by decide), if_pos rfl, hargs]
  simp [h1, h2]

/-- C6 witness: `ls -la` is classified short-running; the timed-out outcome
is reported as the claim states. -/
theorem C6_short_running_timeout_witness :
    executeTool envA stEmpty "run_shell" (Json.obj [("command", Json.str "ls -la")]) =
      (stEmpty, Except.ok (some ⟨"run_shell", Json.obj [("command", Json.str "ls -la")],
        "Ran shell: ls -la",
        some (ToolResult.shell ⟨"", "Command timed out (running in background)", 0⟩)⟩)) :=
  C6_short_running_timeout envA stEmpty "ls -la" rfl rfl

/-- C8: counterexample.  The file `a.txt` exists with content `hello`, and
`old_str` = `xyz` does not occur in it; the claim requires an error, but the
call succeeds (summary `Edited a.txt`, no error) and simply writes the
unchanged content back. -/
theorem C8_counterexample :
    executeTool envA stFile "edit_file"
      (Json.obj [("path", Json.str "a.txt"), ("old_str", Json.str "xyz"),
                 ("new_str", Json.str "world")]) =
      (stFile, Except.ok (some ⟨"edit_file",
        Json.obj [("path", Json.str "a.txt"), ("old_str", Json.str "xyz"),
                  ("new_str", Json.str "world")],
        "Edited a.txt", none⟩)) ∧
    kvGet stFile.s3 "s3/a.txt" = some "hello" :=
  ⟨rfl, rfl⟩

/-- C8 (amended): edit_file fetches the current content, replaces the first
occurrence of old_str by new_str - with the JS `$`-substitution rules applied
to new_str (`$$`, `$&`, and the backquote and quote forms) - and re-uploads
the result to blob storage and the sandbox (the File record itself is not
touched); it errors when the path is unknown, but when old_str does not occur
the replacement is the identity and the call succeeds instead of erroring. -/
theorem C8_edit_file_amended :
    (∀ (env : Env) (st : St) (p o n : String), getFileByPath st p = none →
      executeTool env st "edit_file"
        (Json.obj [("path", Json.str p), ("old_str", Json.str o), ("new_str", Json.str n)]) =
        (st, Except.error ("File not found: " ++ p))) ∧
    (∀ (env : Env) (st : St) (p : String) (f : FileRec) (c o n : String),
      getFileByPath st p = some f → kvGet st.s3 f.s3Key = some c →
      env.s3PutFails (s3KeyOf p) = none → env.sandboxWriteFails p = none →
      p ≠ "vite.config.ts" →
      executeTool env st "edit_file"
        (Json.obj [("path", Json.str p), ("old_str", Json.str o), ("new_str", Json.str n)]) =
        ({ st with s3 := kvPut st.s3 (s3KeyOf p) (replaceFirst c o n),
                   sandbox := kvPut st.sandbox p (replaceFirst c o n) },
         Except.ok (some ⟨"edit_file",
           Json.obj [("path", Json.str p), ("old_str", Json.str o), ("new_str", Json.str n)],
           "Edited " ++ p, none⟩))) := by
  constructor
  · intro env st p o n hf
    have h1 : (Json.obj [("path", Json.str p), ("old_str", Json.str o),
        ("new_str", Json.str n)]).getStr "path" = some p := rfl
    have h2 : (Json.obj [("path", Json.str p), ("old_str", Json.str o),
        ("new_str", Json.str n)]).getStr "old_str" = some o := rfl
    have h3 : (Json.obj [("path", Json.str p), ("old_str", Json.str o),
        ("new_str", Json.str n)]).getStr "new_str" = some n := rfl
    unfold executeTool
    rw [if_neg (by decide), if_pos rfl, h1, h2, h3]
    simp only [hf]
  · intro env st p f c o n hf hc hs3 hsb hp
    have h1 : (Json.obj [("path", Json.str p), ("old_str", Json.str o),
        ("new_str", Json.str n)]).getStr "path" = some p := rfl
    have h2 : (Json.obj [("path", Json.str p), ("old_str", Json.str o),
        ("new_str", Json.str n)]).getStr "old_str" = some o := rfl
    have h3 : (Json.obj [("path", Json.str p), ("old_str", Json.str o),
        ("new_str", Json.str n)]).getStr "new_str" = some n := rfl
    have hv : validateViteConfigOnWrite p (replaceFirst c o n) = replaceFirst c o n := by
      unfold validateViteConfigOnWrite
      rw [if_pos hp]
    unfold executeTool
    rw [if_neg (by decide), if_pos rfl, h1, h2, h3]
    simp only [hf, hc, hv, hs3, hsb]

/-- C8 witness: the unknown-path error at a concrete input; a concrete
successful edit (replacing `hello` by `goodbye` in `a.txt`); and a concrete
edit whose new_str `$&$&` doubles the matched substring via GetSubstitution
(`hello` becomes `hellllo`), exercising the `$`-substitution semantics. -/
theorem C8_edit_file_amended_witness :
    executeTool envA stEmpty "edit_file"
      (Json.obj [("path", Json.str "b.txt"), ("old_str", Json.str "x"),
                 ("new_str", Json.str "y")]) =
      (stEmpty, Except.error "File not found: b.txt") ∧
    executeTool envA stFile "edit_file"
      (Json.obj [("path", Json.str "a.txt"), ("old_str", Json.str "hello"),
                 ("new_str", Json.str "goodbye")]) =
      ({ stFile with s3 := kvPut stFile.s3 (s3KeyOf "a.txt") (replaceFirst "hello" "hello" "goodbye"),
                     sandbox := kvPut stFile.sandbox "a.txt"
                       (replaceFirst "hello" "hello" "goodbye") },
       Except.ok (some ⟨"edit_file",
         Json.obj [("path", Json.str "a.txt"), ("old_str", Json.str "hello"),
                   ("new_str", Json.str "goodbye")],
         "Edited a.txt", none⟩)) ∧
    executeTool envA stFile "edit_file"
      (Json.obj [("path", Json.str "a.txt"), ("old_str", Json.str "ll"),
                 ("new_str", Json.str "$&$&")]) =
      ({ stFile with s3 := kvPut stFile.s3 (s3KeyOf "a.txt") "hellllo",
                     sandbox := kvPut stFile.sandbox "a.txt" "hellllo" },
       Except.ok (some ⟨"edit_file",
         Json.obj [("path", Json.str "a.txt"), ("old_str", Json.str "ll"),
                   ("new_str", Json.str "$&$&")],
         "Edited a.txt", none⟩)) :=
  ⟨C8_edit_file_amended.1 envA stEmpty "b.txt" "x" "y" rfl,
   C8_edit_file_amended.2 envA stFile "a.txt" ⟨0, "a.txt", "s3/a.txt", 5, none⟩ "hello"
     "hello" "goodbye" rfl rfl rfl rfl (by decide),
   C8_edit_file_amended.2 envA stFile "a.txt" ⟨0, "a.txt", "s3/a.txt", 5, none⟩ "hello"
     "ll" "$&$&" rfl rfl rfl rfl (by decide)⟩

/-- C4: for a delete_file call on a file present in the database (with the
repository delete itself succeeding), the record's result is the per-target
outcome map: the blob flag is the blob-delete outcome, the sandbox flag the
sandbox-delete outcome, and the database flag is true exactly when at least
one of the two succeeded; the File record is removed from the store iff that
condition holds; and in the blob-ok/sandbox-fail scenario the summary carries
the sandbox error string, so the two outcomes are distinguished. -/
theorem C4_delete_file_outcomes (env : Env) (st : St) (f : FileRec) (path : String)
    (hf : getFileByPath st path = some f)
    (hdb : env.dbDeleteFails f.id = none) :
    ∃ st' rec,
      executeTool env st "delete_file" (Json.obj [("path", Json.str path)]) =
        (st', Except.ok (some rec)) ∧
      rec.result = some (ToolResult.deletion
        ⟨(env.s3DeleteFails f.s3Key).isNone, (env.sandboxDelete path).success,
         ((env.s3DeleteFails f.s3Key).isNone || (env.sandboxDelete path).success)⟩) ∧
      (((env.s3DeleteFails f.s3Key).isNone || (env.sandboxDelete path).success) = true →
        st'.files = st.files.filter fun g => !(g.id == f.id)) ∧
      (((env.s3DeleteFails f.s3Key).isNone || (env.sandboxDelete path).success) = false →
        st'.files = st.files) ∧
      (env.s3DeleteFails f.s3Key = none → (env.sandboxDelete path).success = false →
        (env.sandboxDelete path).error.isSome = true →
        rec.summary = "Partially deleted " ++ path ++ " (Sandbox: " ++
          (env.sandboxDelete path).error.getD "" ++ ")") := by
  have h1 : (Json.obj [("path", Json.str path)]).getStr "path" = some path := rfl
  unfold executeTool
  rw [if_neg (by decide), if_neg (by decide), if_pos rfl, h1]
  simp only [hf]
  rcases hs3 : env.s3DeleteFails f.s3Key with _ | msg <;>
    rcases hsb : env.sandboxDelete path with ⟨suc, err⟩ <;>
    cases suc <;>
    simp only [hs3, hsb, hdb, Option.isNone, Bool.false_or, Bool.true_or, Bool.or_false,
      Bool.or_true] <;>
    refine ⟨_, _, rfl, ?_, ?_, ?_, ?_⟩ <;>
    simp [dbDeleteFile, List.isEmpty]
  intro he
  rcases err with _ | e
  · simp at he
  · simp only [String.intercalate]
    unfold String.intercalate.go
    have h4 : (" (" : String) ++ ("Sandbox: " ++ (e ++ ")")) = " (Sandbox: " ++ (e ++ ")") := by
      rw [← String.append_assoc]
      rfl
    simp [String.append_assoc, h4]

/-- C4 witness: the concrete scenario in which the blob delete succeeds and
the sandbox delete fails with `boom`. -/
theorem C4_delete_file_outcomes_witness :
    ∃ st' rec,
      executeTool envSb stFile "delete_file" (Json.obj [("path", Json.str "a.txt")]) =
        (st', Except.ok (some rec)) ∧
      rec.result = some (ToolResult.deletion
        ⟨(envSb.s3DeleteFails "s3/a.txt").isNone, (envSb.sandboxDelete "a.txt").success,
         ((envSb.s3DeleteFails "s3/a.txt").isNone || (envSb.sandboxDelete "a.txt").success)⟩) ∧
      (((envSb.s3DeleteFails "s3/a.txt").isNone || (envSb.sandboxDelete "a.txt").success) = true →
        st'.files = stFile.files.filter fun g => !(g.id == (0 : Nat))) ∧
      (((envSb.s3DeleteFails "s3/a.txt").isNone || (envSb.sandboxDelete "a.txt").success) = false →
        st'.files = stFile.files) ∧
      (envSb.s3DeleteFails "s3/a.txt" = none → (envSb.sandboxDelete "a.txt").success = false →
        (envSb.sandboxDelete "a.txt").error.isSome = true →
        rec.summary = "Partially deleted " ++ "a.txt" ++ " (Sandbox: " ++
          (envSb.sandboxDelete "a.txt").error.getD "" ++ ")") :=
  C4_delete_file_outcomes envSb stFile ⟨0, "a.txt", "s3/a.txt", 5, none⟩ "a.txt" rfl rfl

/-- C3: a client disconnect at any event position `d` leaves the persisted
assistant message and the final collaborator state exactly as with any later
(or no) disconnect `d'`; the writes performed before the disconnect are a
prefix of the fully-connected writes; and a client gone from the start
receives no write at all. -/
theorem C3_disconnect_safe (env : Env) (st : St) (chunks : List String) (d d' : Nat)
    (h : d ≤ d') :
    (runTurn env st chunks d).persisted = (runTurn env st chunks d').persisted ∧
    (runTurn env st chunks d).finalSt = (runTurn env st chunks d').finalSt ∧
    (∃ t, (runTurn env st chunks d').writes = (runTurn env st chunks d).writes ++ t) ∧
    (runTurn env st chunks 0).writes = [] := by
  obtain ⟨hp, hf⟩ := runTurn_persisted_indep env st chunks d d'
  exact ⟨hp, hf, runTurn_writes_mono env st chunks d d' h, runTurn_writes_zero env st chunks⟩

/-- C3 witness: a turn with a tool call, disconnected from the start, still
persists the same message as a connected turn, and performs no write. -/
theorem C3_disconnect_safe_witness :
    (runTurn envA stFile ["ok [tool:run_shell]\x7b\"command\":\"npm run dev\"\x7d"] 0).persisted =
      (runTurn envA stFile ["ok [tool:run_shell]\x7b\"command\":\"npm run dev\"\x7d"] 9).persisted ∧
    (runTurn envA stFile ["ok [tool:run_shell]\x7b\"command\":\"npm run dev\"\x7d"] 0).writes = [] := by
  obtain ⟨hp, _, _, hz⟩ :=
    C3_disconnect_safe envA stFile ["ok [tool:run_shell]\x7b\"command\":\"npm run dev\"\x7d"]
      0 9 (by omega)
  exact ⟨hp, hz⟩

/-- C7: counterexample.  A tool-call marker whose payload is truncated at end
of stream produces no ToolCall event and the turn still finalizes (the
message is persisted, `done` is written) - but contrary to the claim no
error-kind event is surfaced to the client: the writes are exactly the text
chunk and `done`. -/
theorem C7_counterexample :
    runTurn envA stEmpty ["Hi [tool:write_file]\x7b\"path\":\"a.txt\""] 100 =
      ⟨[ClientEvent.chunkEv "Hi [tool:write_file]\x7b\"path\":\"a.txt\"", ClientEvent.doneEv],
       ⟨"Hi [tool:write_file]\x7b\"path\":\"a.txt\"", none, none⟩, stEmpty⟩ := rfl

/-- C7 (amended): when every tool-call marker of the stream fails to parse,
no ToolCall record is persisted, no error event and no tool event is written
to the client (the drop is only logged server-side), and the turn still
persists the assistant message with the full content. -/
theorem C7_malformed_dropped (env : Env) (st : St) (chunks : List String) (d : Nat)
    (h : parseToolCalls (concatChunks chunks) = []) :
    (runTurn env st chunks d).persisted.content = concatChunks chunks ∧
    (runTurn env st chunks d).persisted.toolCalls = none ∧
    (∀ m, ClientEvent.errorEv m ∉ (runTurn env st chunks d).writes) ∧
    (∀ nm sm, ClientEvent.toolEv nm sm ∉ (runTurn env st chunks d).writes) := by
  have hnt : ∀ e ∈ chatWithAIStream chunks, isToolEvent e = false := by
    obtain ⟨pre, heq, hpre⟩ := chat_decompose chunks
    rw [h] at heq
    simp only [List.map_nil, List.append_nil] at heq
    rw [heq]
    exact hpre
  refine ⟨runTurn_content env st chunks d, ?_, ?_, ?_⟩
  · rw [runTurn_toolCalls_eq, h]
    rfl
  · intro m hm
    rw [runTurn_writes_formula] at hm
    simp only [List.mem_append] at hm
    rcases hm with (hm | hm) | hm
    · exact (runLoop_no_error_writes env _ hnt st 0 d _ hm).1 m rfl
    · split at hm <;> simp at hm
    · split at hm <;> simp at hm
  · intro nm sm hm
    rw [runTurn_writes_formula] at hm
    simp only [List.mem_append] at hm
    rcases hm with (hm | hm) | hm
    · exact (runLoop_no_error_writes env _ hnt st 0 d _ hm).2 nm sm rfl
    · split at hm <;> simp at hm
    · split at hm <;> simp at hm

/-- C7 witness: the amended behavior at a concrete truncated-payload turn. -/
theorem C7_malformed_dropped_witness :
    (runTurn envA stEmpty ["Hi [tool:write_file]\x7b\"path\":\"b.txt\""] 5).persisted.toolCalls =
      none ∧
    (∀ m, ClientEvent.errorEv m ∉
      (runTurn envA stEmpty ["Hi [tool:write_file]\x7b\"path\":\"b.txt\""] 5).writes) := by
  obtain ⟨_, h2, h3, _⟩ :=
    C7_malformed_dropped envA stEmpty ["Hi [tool:write_file]\x7b\"path\":\"b.txt\""] 5 rfl
  exact ⟨h2, h3⟩

/-- C9: every action in the persisted assistant message has status
`completed` - never `in_progress` - while every action event written to the
client during the stream carried status `in_progress`; the statuses are
mutated to `completed` at finalization. -/
theorem C9_no_dangling_actions (env : Env) (st : St) (chunks : List String) (d : Nat) :
    (∀ a ∈ ((runTurn env st chunks d).persisted.actions).getD [],
      a.status = ActionStatus.completed) ∧
    (∀ a, ClientEvent.actionEv a ∈ (runTurn env st chunks d).writes →
      a.status = ActionStatus.in_progress) := by
  constructor
  · intro a ha
    rw [runTurn_actions_eq] at ha
    unfold optList at ha
    by_cases he : ((streamedActions chunks).map markCompleted).isEmpty
    · rw [if_pos he] at ha
      simp at ha
    · rw [if_neg he] at ha
      simp only [Option.getD_some, List.mem_map] at ha
      obtain ⟨b, _, hb⟩ := ha
      rw [← hb]
      rfl
  · intro a ha
    rw [runTurn_writes_formula] at ha
    simp only [List.mem_append] at ha
    rcases ha with (ha | ha) | ha
    · exact chat_action_status chunks a (runLoop_actionEv_mem env _ st 0 d a ha)
    · split at ha <;> simp at ha
    · split at ha <;> simp at ha

/-- C9 witness: the persisted action of a concrete turn is `completed`, via
the theorem. -/
theorem C9_no_dangling_actions_witness :
    (⟨"Work", ActionStatus.completed⟩ : ActionMatch).status = ActionStatus.completed :=
  (C9_no_dangling_actions envA stEmpty ["x [action:Work] y"] 100).1
    ⟨"Work", ActionStatus.completed⟩
    (by rw [show ((runTurn envA stEmpty ["x [action:Work] y"] 100).persisted.actions).getD [] =
          [⟨"Work", ActionStatus.completed⟩] from rfl]
        exact List.mem_singleton.mpr rfl)

/-- C10: counterexample.  The persisted assistant text of this turn is the
full raw model output, markers included; the spec's marker-stripped text
differs from it, so the claim that the persisted text has the markers
stripped fails. -/
theorem C10_counterexample :
    (runTurn envA stEmpty
      ["Plan [action:Write] go [tool:run_code]\x7b\"language\":\"python\",\"code\":\"1\"\x7d done"]
      100).persisted.content =
      "Plan [action:Write] go [tool:run_code]\x7b\"language\":\"python\",\"code\":\"1\"\x7d done" ∧
    stripMarkersSpec
      "Plan [action:Write] go [tool:run_code]\x7b\"language\":\"python\",\"code\":\"1\"\x7d done" ≠
      "Plan [action:Write] go [tool:run_code]\x7b\"language\":\"python\",\"code\":\"1\"\x7d done" :=
  ⟨rfl, by decide⟩

/-- C10 (amended): the persisted assistant text is the full raw model output
(the concatenation of all fragments, markers not stripped), while the
tool-call records - the sequential dispatch of the tool calls parsed from the
full content - and the completed action records are persisted as their own
lists alongside it (null when empty). -/
theorem C10_persisted_shape (env : Env) (st : St) (chunks : List String) (d : Nat) :
    (runTurn env st chunks d).persisted.content = concatChunks chunks ∧
    (runTurn env st chunks d).persisted.toolCalls =
      optList (dispatchAll env st (parseToolCalls (concatChunks chunks))).2 ∧
    (runTurn env st chunks d).persisted.actions =
      optList ((streamedActions chunks).map markCompleted) :=
  ⟨runTurn_content env st chunks d, runTurn_toolCalls_eq env st chunks d,
   runTurn_actions_eq env st chunks d⟩
